import Mathlib

/-!
# Verification of the mint checkout orchestration flow

A shallow embedding of the mint modal component (payment authorization,
mint orchestration, post-mint side-effect pipeline) and of the persistence
helpers (collection upsert, leaderboard position), with theorems settling
the specification's claims about them.

Modelling conventions:
* JavaScript numbers that hold display-currency amounts are modelled as
  exact rationals (`ℚ`); `Math.ceil` is the integer ceiling `⌈·⌉`.
* JavaScript `BigInt(x)` applied to a fractional number throws a
  `RangeError`, so that conversion is modelled as an `Option ℤ` that is
  `none` exactly on non-integral inputs.
* React state updates are modelled by explicit state passing; effect
  handlers become functions from events to successor states / emitted
  actions.
-/

namespace AcidTest

/-! ## Numeric model of the on-chain amount computations

From `MintModal`: `price = usdPrice / ethUsd`, `safePrice = price + price * 0.01`,
the `handleMint` transaction value, the approve-call amounts in
`handleApproveAndMintWithSendCalls` / `handleApproveOnly`, and the
affordability thresholds `hasEnoughEthBalance` / `hasEnoughUsdcBalance` /
`hasEnoughUsdcAllowance`. -/

/-- `const price = usdPrice / ethUsd;` -/
def price (usdPrice ethUsd : ℚ) : ℚ := usdPrice / ethUsd

/-- `const safePrice = price + price * 0.01;` (the 1% markup on the native path). -/
def safePrice (usdPrice ethUsd : ℚ) : ℚ :=
  price usdPrice ethUsd + price usdPrice ethUsd * (1 / 100)

/-- JavaScript `BigInt(x)` on a Number: exact on integers, throws on
fractional values (modelled as `none`). -/
def toBigInt (x : ℚ) : Option ℤ :=
  if x.den = 1 then some x.num else none

/-- `handleMint` ETH-path transaction value:
`BigInt(Math.ceil(safePrice * amount * 10 ** 18))`. -/
def mintValueWei (usdPrice ethUsd : ℚ) (amount : ℕ) : ℤ :=
  ⌈safePrice usdPrice ethUsd * amount * 10 ^ 18⌉

/-- The approve-call amount in both `handleApproveAndMintWithSendCalls` and
`handleApproveOnly`: `BigInt(usdPrice * mintQuantity * 10 ** 6)` — note the
absence of `Math.ceil`. -/
def approveAmountMinor (usdPrice : ℚ) (mintQuantity : ℕ) : Option ℤ :=
  toBigInt (usdPrice * mintQuantity * 10 ^ 6)

/-- `hasEnoughEthBalance` threshold:
`BigInt(Math.ceil(safePrice * mintQuantity * 10 ** 18))`. -/
def requiredEthWei (usdPrice ethUsd : ℚ) (mintQuantity : ℕ) : ℤ :=
  ⌈safePrice usdPrice ethUsd * mintQuantity * 10 ^ 18⌉

/-- `hasEnoughUsdcBalance` threshold:
`BigInt(Math.ceil(usdPrice * mintQuantity * 10 ** 6))`. -/
def requiredUsdcMinor (usdPrice : ℚ) (mintQuantity : ℕ) : ℤ :=
  ⌈usdPrice * mintQuantity * 10 ^ 6⌉

/-- `hasEnoughUsdcAllowance` threshold (same ceiling form as the balance check). -/
def requiredAllowanceMinor (usdPrice : ℚ) (mintQuantity : ℕ) : ℤ :=
  ⌈usdPrice * mintQuantity * 10 ^ 6⌉

/-- `hasEnoughEthBalance()`: `false` without balance data or a connected
address, otherwise compares the wei balance against the ceiling threshold. -/
def hasEnoughEthBalance (balanceData : Option ℤ) (hasUserAddress : Bool)
    (usdPrice ethUsd : ℚ) (mintQuantity : ℕ) : Bool :=
  match balanceData, hasUserAddress with
  | some balance, true => requiredEthWei usdPrice ethUsd mintQuantity ≤ balance
  | _, _ => false

/-- `hasEnoughUsdcBalance()`: `!usdcBalance` is also true for a `0n` bigint
balance, so a zero balance short-circuits to `false`. -/
def hasEnoughUsdcBalance (usdcBalance : Option ℤ) (hasUserAddress : Bool)
    (usdPrice : ℚ) (mintQuantity : ℕ) : Bool :=
  match usdcBalance, hasUserAddress with
  | some balance, true =>
      if balance = 0 then false
      else requiredUsdcMinor usdPrice mintQuantity ≤ balance
  | _, _ => false

/-- `hasEnoughUsdcAllowance()`: same shape as the balance check, against the
current allowance. -/
def hasEnoughUsdcAllowance (usdcAllowance : Option ℤ) (hasUserAddress : Bool)
    (usdPrice : ℚ) (mintQuantity : ℕ) : Bool :=
  match usdcAllowance, hasUserAddress with
  | some allowance, true =>
      if allowance = 0 then false
      else requiredAllowanceMinor usdPrice mintQuantity ≤ allowance
  | _, _ => false

/-- A rational that no integer equals has denominator different from 1. -/
lemma den_ne_one_of_no_int {x : ℚ} (h : ∀ n : ℤ, (n : ℚ) ≠ x) : x.den ≠ 1 :=
  fun hd => h x.num (Rat.coe_int_num_of_den_eq_one hd)

/-- The concrete product `1/3 * 1 * 10^6` is not integral. -/
lemma oneThird_product_den_ne_one : ((1 / 3 : ℚ) * (1 : ℕ) * 10 ^ 6).den ≠ 1 := by
  have hx : (1 / 3 : ℚ) * (1 : ℕ) * 10 ^ 6 = 1000000 / 3 := by norm_num
  rw [hx]
  refine den_ne_one_of_no_int ?_
  intro n hn
  have h2 : (n : ℚ) * 3 = 1000000 := by rw [hn]; norm_num
  have h3 : n * 3 = 1000000 := by exact_mod_cast h2
  omega

/-- The ceiling-rounded minor-unit value at `usdPrice = 1/3`, quantity 1. -/
lemma oneThird_ceil : (⌈(1 / 3 : ℚ) * (1 : ℕ) * 10 ^ 6⌉ : ℤ) = 333334 := by
  have hx : (1 / 3 : ℚ) * (1 : ℕ) * 10 ^ 6 = 1000000 / 3 := by norm_num
  rw [hx, Int.ceil_eq_iff]
  constructor <;> norm_num

/-- C1, counterexample: at `usdPrice = 1/3` and quantity 1 the stablecoin
approval amount is *not* computed with ceiling rounding: the code converts
`usdPrice * mintQuantity * 10 ** 6` directly with `BigInt` (an error on the
fractional product), whereas a ceiling-rounded conversion would yield the
minor-unit amount 333334. -/
theorem approveAmount_not_ceiling_at_one_third :
    approveAmountMinor (1 / 3) 1 = none ∧
    approveAmountMinor (1 / 3) 1 ≠ some ⌈(1 / 3 : ℚ) * (1 : ℕ) * 10 ^ 6⌉ ∧
    (⌈(1 / 3 : ℚ) * (1 : ℕ) * 10 ^ 6⌉ : ℤ) = 333334 := by
  have hnone : approveAmountMinor (1 / 3) 1 = none := by
    simp only [approveAmountMinor, toBigInt, if_neg oneThird_product_den_ne_one]
  exact ⟨hnone, by rw [hnone]; exact fun h => Option.noConfusion h, oneThird_ceil⟩

/-- C1, amended: the native-currency mint value and the affordability
thresholds are ceiling-rounded minor-unit amounts — each is at least the
exact fractional amount, and strictly exceeds its truncation whenever the
fractional amount has a nonzero remainder — but the stablecoin approval
amount is a raw `BigInt` conversion: it equals the exact product when that
product is integral and is an error (not a ceiling-rounded value) otherwise. -/
theorem mint_value_and_thresholds_ceiled_approve_raw
    (usdPrice ethUsd : ℚ) (q : ℕ) :
    (safePrice usdPrice ethUsd * q * 10 ^ 18 ≤ (mintValueWei usdPrice ethUsd q : ℚ)) ∧
    (safePrice usdPrice ethUsd * q * 10 ^ 18 ≤ (requiredEthWei usdPrice ethUsd q : ℚ)) ∧
    (usdPrice * q * 10 ^ 6 ≤ (requiredUsdcMinor usdPrice q : ℚ)) ∧
    (usdPrice * q * 10 ^ 6 ≤ (requiredAllowanceMinor usdPrice q : ℚ)) ∧
    ((safePrice usdPrice ethUsd * q * 10 ^ 18).den ≠ 1 →
      ⌊safePrice usdPrice ethUsd * q * 10 ^ 18⌋ < mintValueWei usdPrice ethUsd q) ∧
    ((usdPrice * q * 10 ^ 6).den ≠ 1 →
      ⌊usdPrice * q * 10 ^ 6⌋ < requiredUsdcMinor usdPrice q) ∧
    (∀ z : ℤ, approveAmountMinor usdPrice q = some z → (z : ℚ) = usdPrice * q * 10 ^ 6) ∧
    ((usdPrice * q * 10 ^ 6).den ≠ 1 → approveAmountMinor usdPrice q = none) := by
  have ceilStrict : ∀ x : ℚ, x.den ≠ 1 → ⌊x⌋ < ⌈x⌉ := by
    intro x hden
    have hne : ((⌊x⌋ : ℤ) : ℚ) ≠ x := fun h => hden (h ▸ Rat.den_intCast ⌊x⌋)
    exact Int.lt_ceil.mpr (lt_of_le_of_ne (Int.floor_le x) hne)
  refine ⟨Int.le_ceil _, Int.le_ceil _, Int.le_ceil _, Int.le_ceil _,
    ceilStrict _, ceilStrict _, ?_, ?_⟩
  · intro z hz
    simp only [approveAmountMinor, toBigInt] at hz
    by_cases hden : (usdPrice * q * 10 ^ 6).den = 1
    · rw [if_pos hden] at hz
      cases hz
      exact Rat.coe_int_num_of_den_eq_one hden
    · rw [if_neg hden] at hz
      cases hz
  · intro hden
    simp only [approveAmountMinor, toBigInt, if_neg hden]

/-- C1, witness for the amended theorem: at `usdPrice = 1/3`, quantity 1,
the fractional product has denominator 3 and the approval amount errors. -/
theorem mint_value_and_thresholds_ceiled_approve_raw_witness :
    ((1 / 3 : ℚ) * (1 : ℕ) * 10 ^ 6).den ≠ 1 ∧ approveAmountMinor (1 / 3) 1 = none :=
  ⟨oneThird_product_den_ne_one,
    (mint_value_and_thresholds_ceiled_approve_raw (1 / 3) 2 1).2.2.2.2.2.2.2
      oneThird_product_den_ne_one⟩

/-! ## Modal session state and the post-mint idempotency guard

`MintState` is the modal's state enum; `postMintExecuted` is the guard flag;
`pipelineRuns` is a ghost counter incremented each time the body of
`executePostMintLogic` past the guard actually runs. -/

inductive MintState
  | Initial
  | Confirm
  | Success
  deriving DecidableEq, Repr

structure ModalState where
  mintState : MintState
  postMintExecuted : Bool
  pipelineRuns : ℕ
  deriving DecidableEq, Repr

/-- `executePostMintLogic`: returns unchanged when there is no user fid or the
guard flag is already set; otherwise sets the flag (synchronously, before the
first awaited step) and runs the pipeline body once. -/
def executePostMintLogic (userFid : Option ℕ) (s : ModalState) : ModalState :=
  if userFid.isNone || s.postMintExecuted then s
  else { s with postMintExecuted := true, pipelineRuns := s.pipelineRuns + 1 }

/-- The events of the modal that touch `mintState` or the guard flag. -/
inductive ModalEvent
  | openModal          -- the `isOpen` effect: a new checkout session opens
  | submitMint         -- `handleMint` begins: `setPostMintExecuted(false)`
  | submitSendCalls    -- `handleApproveAndMintWithSendCalls` begins
  | mintReceiptSuccess -- the `mintTxResult` effect with a success receipt
  | mintReceiptError   -- the `mintTxResult` effect with an error receipt
  | mintWriteError     -- the `mintError` effect: `setPostMintExecuted(false)`
  | sendCallsSuccess   -- `checkCallsStatus` success branch
  deriving DecidableEq, Repr

/-- One step of the modal's effect handlers. The `mintTxResult` effect body
runs only under the outer `if (!postMintExecuted)` wrapper; its success branch
additionally requires `mintState !== Success`, sets `Success` and then awaits
`executePostMintLogic`; its error branch requires `mintState !== Initial`. -/
def modalStep (userFid : Option ℕ) (e : ModalEvent) (s : ModalState) : ModalState :=
  match e with
  | .openModal => { s with postMintExecuted := false }
  | .submitMint => { s with postMintExecuted := false }
  | .submitSendCalls => { s with postMintExecuted := false }
  | .mintReceiptSuccess =>
      if !s.postMintExecuted && decide (s.mintState ≠ MintState.Success) then
        executePostMintLogic userFid { s with mintState := MintState.Success }
      else s
  | .mintReceiptError =>
      if !s.postMintExecuted && decide (s.mintState ≠ MintState.Initial) then
        { s with mintState := MintState.Initial }
      else s
  | .mintWriteError => { s with postMintExecuted := false }
  | .sendCallsSuccess =>
      { executePostMintLogic userFid s with mintState := MintState.Success }

/-- C2, counterexample: the guard flag is not reset *only* when a new checkout
session opens — beginning a new mint submission (`handleMint`) also resets it,
without any session opening. -/
theorem postMint_guard_reset_outside_session_open :
    (modalStep (some 1) ModalEvent.submitMint
        { mintState := MintState.Success, postMintExecuted := true,
          pipelineRuns := 1 }).postMintExecuted = false ∧
    ModalEvent.submitMint ≠ ModalEvent.openModal :=
  ⟨rfl, by decide⟩

/-- C2, amended: the post-mint pipeline runs at most once per successful mint
even if the success signal fires more than once (a second success event is a
no-op), the guard is set in the same step that starts the pipeline and re-entry
is refused while it is set; the flag is reset when a new checkout session
opens, and also when a new mint or bundled-call submission begins and on a
mint write error. -/
theorem postMint_pipeline_at_most_once (fid : Option ℕ) (s : ModalState) :
    (modalStep fid ModalEvent.mintReceiptSuccess
        (modalStep fid ModalEvent.mintReceiptSuccess s) =
      modalStep fid ModalEvent.mintReceiptSuccess s) ∧
    ((modalStep fid ModalEvent.mintReceiptSuccess s).pipelineRuns ≤ s.pipelineRuns + 1) ∧
    (s.postMintExecuted = false → fid.isNone = false →
      (executePostMintLogic fid s).postMintExecuted = true ∧
      (executePostMintLogic fid s).pipelineRuns = s.pipelineRuns + 1) ∧
    (s.postMintExecuted = true → executePostMintLogic fid s = s) ∧
    (∀ e : ModalEvent, s.postMintExecuted = true →
      (modalStep fid e s).postMintExecuted = false →
      (e = ModalEvent.openModal ∨ e = ModalEvent.submitMint ∨
        e = ModalEvent.submitSendCalls ∨ e = ModalEvent.mintWriteError)) := by
  obtain ⟨ms, flag, runs⟩ := s
  refine ⟨?_, ?_, ?_, ?_, ?_⟩
  · cases flag <;> cases ms <;> cases fid <;>
      simp [modalStep, executePostMintLogic]
  · cases flag <;> cases ms <;> cases fid <;>
      simp [modalStep, executePostMintLogic]
  · intro hflag hfid
    subst hflag
    cases fid with
    | none => simp [Option.isNone] at hfid
    | some f => simp [executePostMintLogic]
  · intro hflag
    subst hflag
    simp [executePostMintLogic]
  · intro e hflag
    subst hflag
    cases e <;> simp [modalStep, executePostMintLogic]

/-- C2, witness for the amended theorem: a state with the guard set is left
unchanged by `executePostMintLogic`, and a clean state with a user fid runs
the pipeline exactly once while setting the guard. -/
theorem postMint_pipeline_at_most_once_witness :
    executePostMintLogic (some 7)
        { mintState := MintState.Confirm, postMintExecuted := true, pipelineRuns := 1 } =
      { mintState := MintState.Confirm, postMintExecuted := true, pipelineRuns := 1 } ∧
    (executePostMintLogic (some 7)
        { mintState := MintState.Confirm, postMintExecuted := false,
          pipelineRuns := 0 }).pipelineRuns = 1 :=
  ⟨(postMint_pipeline_at_most_once (some 7)
      { mintState := MintState.Confirm, postMintExecuted := true,
        pipelineRuns := 1 }).2.2.2.1 rfl,
   ((postMint_pipeline_at_most_once (some 7)
      { mintState := MintState.Confirm, postMintExecuted := false,
        pipelineRuns := 0 }).2.2.1 rfl rfl).2⟩

/-! ## Error classification of transaction failures

The three error surfaces: the `mintError` effect, the `allowanceError`
effect, and the catch handler of `handleApproveAndMintWithSendCalls`.
JavaScript `String.prototype.includes` is substring containment, embedded
as an executable char-list check. -/

/-- Char-list prefix test. -/
def startsWithChars : List Char → List Char → Bool
  | [], _ => true
  | _ :: _, [] => false
  | a :: as, b :: bs => a == b && startsWithChars as bs

/-- Char-list substring test. -/
def containsChars (pat : List Char) : List Char → Bool
  | [] => startsWithChars pat []
  | l@(_ :: rest) => startsWithChars pat l || containsChars pat rest

/-- JavaScript `msg.includes(pat)`. -/
def strIncludes (msg pat : String) : Bool :=
  containsChars pat.data msg.data

lemma startsWithChars_self (l : List Char) : startsWithChars l l = true := by
  induction l with
  | nil => rfl
  | cons a as ih => simp [startsWithChars, ih]

lemma strIncludes_self (s : String) : strIncludes s s = true := by
  unfold strIncludes
  cases h : s.data with
  | nil => rfl
  | cons a as => simpa [containsChars] using Or.inl (startsWithChars_self (a :: as))

/-- The wallet-rejection marker tested by every error handler. -/
def userRejectedMsg : String := "The user rejected the request"

/-- The marker of a wallet without the bundled-call capability. -/
def sendCallsUnsupportedMsg : String := "Method \"wallet_sendCalls\" is not supported"

inductive SendCallsCatchAction
  | fallbackApproveOnly
  | suppressed
  | toastMsg (msg : String)
  deriving DecidableEq, Repr

/-- The catch handler of `handleApproveAndMintWithSendCalls`: a
capability-unsupported error falls back to `handleApproveOnly`, a user
rejection is suppressed, anything else is toasted. -/
def handleSendCallsCatch (msg : String) : SendCallsCatchAction :=
  if strIncludes msg sendCallsUnsupportedMsg then .fallbackApproveOnly
  else if strIncludes msg userRejectedMsg then .suppressed
  else .toastMsg msg

/-- The user-visible notice produced by the catch handler, if any. -/
def sendCallsCatchToast (msg : String) : Option String :=
  match handleSendCallsCatch msg with
  | .toastMsg m => some m
  | _ => none

/-- The `mintError` effect: toast unless the message contains the
user-rejection marker. -/
def mintErrorToast (msg : String) : Option String :=
  if strIncludes msg userRejectedMsg then none else some msg

/-- The `allowanceError` effect: same policy as `mintErrorToast`. -/
def allowanceErrorToast (msg : String) : Option String :=
  if strIncludes msg userRejectedMsg then none else some msg

/-- Chain-facing actions of the orchestrator used by the fallback flow. -/
inductive OrchAction
  | refetchAllowance
  | approveCall
  | submitMintCall (quantity : ℕ) (isWETH : Bool)
  deriving DecidableEq, Repr

/-- `handleApproveOnly`: issues exactly one approval transaction (nothing
without a connected address). -/
def handleApproveOnly (hasUserAddress : Bool) : List OrchAction :=
  if hasUserAddress then [.approveCall] else []

/-- The `allowanceTxResult` effect: once the approval receipt is successful,
refetch the allowance and automatically submit the mint call. -/
def onAllowanceReceipt (isSuccess : Bool) (mintQuantity : ℕ) : List OrchAction :=
  if isSuccess then [.refetchAllowance, .submitMintCall mintQuantity false] else []

/-- C3: a capability-unsupported bundled-call error falls back transparently
(no toast) to the single-approval flow, and a confirmed approval
automatically triggers the mint call. -/
theorem capability_unsupported_falls_back (msg : String) (q : ℕ)
    (h : strIncludes msg sendCallsUnsupportedMsg = true) :
    handleSendCallsCatch msg = SendCallsCatchAction.fallbackApproveOnly ∧
    sendCallsCatchToast msg = none ∧
    handleApproveOnly true = [OrchAction.approveCall] ∧
    onAllowanceReceipt true q =
      [OrchAction.refetchAllowance, OrchAction.submitMintCall q false] := by
  refine ⟨?_, ?_, rfl, rfl⟩
  · simp [handleSendCallsCatch, h]
  · simp [sendCallsCatchToast, handleSendCallsCatch, h]

/-- C3, witness: the exact capability-unsupported message falls back. -/
theorem capability_unsupported_falls_back_witness :
    strIncludes sendCallsUnsupportedMsg sendCallsUnsupportedMsg = true ∧
    handleSendCallsCatch sendCallsUnsupportedMsg =
      SendCallsCatchAction.fallbackApproveOnly :=
  ⟨strIncludes_self _,
   (capability_unsupported_falls_back sendCallsUnsupportedMsg 1
      (strIncludes_self _)).1⟩

/-- C5, counterexample: the capability-unsupported error from a bundled-call
submission is not a user rejection, yet no user-visible failure notice is
shown for it (the catch falls back silently), refuting the claimed
if-and-only-if. -/
theorem suppressed_error_that_is_not_user_declined :
    strIncludes sendCallsUnsupportedMsg userRejectedMsg = false ∧
    sendCallsCatchToast sendCallsUnsupportedMsg = none := by
  refine ⟨by decide, ?_⟩
  simp [sendCallsCatchToast, handleSendCallsCatch, strIncludes_self]

/-- C5, amended: mint and approval errors show a notice iff they are not
user rejections; a bundled-call submission error shows a notice iff it is
neither a user rejection nor the capability-unsupported error, which instead
falls back silently. -/
theorem error_notice_iff (msg : String) :
    (mintErrorToast msg).isSome = !strIncludes msg userRejectedMsg ∧
    (allowanceErrorToast msg).isSome = !strIncludes msg userRejectedMsg ∧
    (sendCallsCatchToast msg).isSome =
      (!strIncludes msg sendCallsUnsupportedMsg && !strIncludes msg userRejectedMsg) ∧
    (strIncludes msg userRejectedMsg = true → mintErrorToast msg = none) ∧
    (strIncludes msg userRejectedMsg = false → mintErrorToast msg = some msg) := by
  refine ⟨?_, ?_, ?_, ?_, ?_⟩
  · cases h : strIncludes msg userRejectedMsg <;> simp [mintErrorToast, h]
  · cases h : strIncludes msg userRejectedMsg <;> simp [allowanceErrorToast, h]
  · cases h1 : strIncludes msg sendCallsUnsupportedMsg <;>
      cases h2 : strIncludes msg userRejectedMsg <;>
        simp [sendCallsCatchToast, handleSendCallsCatch, h1, h2]
  · intro h
    simp [mintErrorToast, h]
  · intro h
    simp [mintErrorToast, h]

/-- C5, witness for the amended theorem: the exact rejection message is
suppressed by the `mintError` effect. -/
theorem error_notice_iff_witness :
    strIncludes userRejectedMsg userRejectedMsg = true ∧
    mintErrorToast userRejectedMsg = none :=
  ⟨strIncludes_self _, (error_notice_iff userRejectedMsg).2.2.2.1 (strIncludes_self _)⟩

/-! ## Bundled-call status polling (`checkCallsStatus`) -/

inductive CallsStatus
  | success
  | pending
  | failure
  deriving DecidableEq, Repr

inductive PollAction
  | clearInFlight
  | refetchAllowance
  | runPostMintPipeline
  | setMintStateSuccess
  | toastTransactionFailed
  deriving DecidableEq, Repr

structure PollOutcome where
  actions : List PollAction
  repollDelayMs : Option ℕ
  deriving DecidableEq, Repr

/-- The body of `checkCallsStatus` on a resolved status query. -/
def checkCallsStatusStep : CallsStatus → PollOutcome
  | .success =>
      ⟨[.clearInFlight, .refetchAllowance, .runPostMintPipeline, .setMintStateSuccess], none⟩
  | .pending => ⟨[], some 2000⟩
  | .failure => ⟨[.clearInFlight, .toastTransactionFailed], none⟩

structure QueryErrorOutcome where
  delayMs : ℕ
  actions : List PollAction
  repollDelayMs : Option ℕ
  deriving DecidableEq, Repr

/-- The catch branch of `checkCallsStatus`: after 5 seconds, refetch the
allowance and clear the in-flight flag; no re-poll, no success transition. -/
def checkCallsStatusQueryError : QueryErrorOutcome :=
  ⟨5000, [.refetchAllowance, .clearInFlight], none⟩

/-- The first poll is scheduled 2000 ms after `sendCalls` returns. -/
def initialPollDelayMs : ℕ := 2000

/-- C4: the bundled-call polling protocol — first poll after 2 s, re-poll
every 2 s while pending; on success the allowance refresh and the post-mint
pipeline precede the `Success` transition and polling stops; on failure a
notice is shown and polling stops; on a transient query error the handler
waits 5 s, refreshes the allowance, clears the in-flight flag, and neither
re-polls nor assumes success. -/
theorem bundled_call_polling_protocol :
    initialPollDelayMs = 2000 ∧
    checkCallsStatusStep CallsStatus.pending = ⟨[], some 2000⟩ ∧
    checkCallsStatusStep CallsStatus.success =
      ⟨[PollAction.clearInFlight, PollAction.refetchAllowance,
        PollAction.runPostMintPipeline, PollAction.setMintStateSuccess], none⟩ ∧
    (checkCallsStatusStep CallsStatus.success).actions.indexOf
        PollAction.refetchAllowance <
      (checkCallsStatusStep CallsStatus.success).actions.indexOf
        PollAction.setMintStateSuccess ∧
    (checkCallsStatusStep CallsStatus.success).actions.indexOf
        PollAction.runPostMintPipeline <
      (checkCallsStatusStep CallsStatus.success).actions.indexOf
        PollAction.setMintStateSuccess ∧
    (checkCallsStatusStep CallsStatus.success).repollDelayMs = none ∧
    checkCallsStatusStep CallsStatus.failure =
      ⟨[PollAction.clearInFlight, PollAction.toastTransactionFailed], none⟩ ∧
    checkCallsStatusQueryError =
      ⟨5000, [PollAction.refetchAllowance, PollAction.clearInFlight], none⟩ ∧
    PollAction.runPostMintPipeline ∉ checkCallsStatusQueryError.actions ∧
    PollAction.setMintStateSuccess ∉ checkCallsStatusQueryError.actions := by
  refine ⟨rfl, rfl, rfl, ?_, ?_, rfl, rfl, rfl, ?_, ?_⟩ <;> decide

/-! ## Persistence gateway: collection upsert (`createCollection`)

The store holds the user fids, the song ids, and the collection rows keyed
by (userId, songId) with a cumulative amount. Prisma's unique-keyed
update/find are embedded as first-match operations on the row list. -/

structure DbRow where
  userId : ℕ
  songId : ℕ
  amount : ℤ
  deriving DecidableEq, Repr

structure Store where
  users : List ℕ
  songs : List ℕ
  collections : List DbRow
  deriving DecidableEq, Repr

/-- The `userId_songId` unique-key predicate. -/
def rowMatches (u s : ℕ) (r : DbRow) : Bool :=
  r.userId == u && r.songId == s

/-- `getCollection`: `prisma.collection.findUnique({where: {userId_songId}})`. -/
def getCollection (st : Store) (u s : ℕ) : Option DbRow :=
  st.collections.find? (rowMatches u s)

/-- `isInCollection`. -/
def isInCollection (st : Store) (u s : ℕ) : Bool :=
  (getCollection st u s).isSome

/-- `getUser`: whether the fid exists in the user table. -/
def userExists (st : Store) (fid : ℕ) : Bool :=
  st.users.contains fid

/-- `getSong`: whether the song id exists in the song table. -/
def songExists (st : Store) (id : ℕ) : Bool :=
  st.songs.contains id

/-- `prisma.collection.update({where: {userId_songId}, data: {amount}})`:
replaces the amount of the (unique) matching row. -/
def updateAmount : List DbRow → ℕ → ℕ → ℤ → List DbRow
  | [], _, _, _ => []
  | r :: rs, u, s, a =>
      if rowMatches u s r then { r with amount := a } :: rs
      else r :: updateAmount rs u s a

/-- `createCollection`: repeat mints accumulate (`res.amount + collection.amount`)
with no user or song existence check; a first mint checks that the user and
then the song exist, throwing otherwise, and only then inserts the row. -/
def createCollection (st : Store) (u s : ℕ) (a : ℤ) :
    Except String (Store × DbRow) :=
  match getCollection st u s with
  | some res =>
      .ok ({ st with collections := updateAmount st.collections u s (res.amount + a) },
        { res with amount := res.amount + a })
  | none =>
      if userExists st u then
        if songExists st s then
          .ok ({ st with collections := st.collections ++ [⟨u, s, a⟩] }, ⟨u, s, a⟩)
        else .error ("Song with ID " ++ toString s ++ " does not exist")
      else .error ("User with ID " ++ toString u ++ " does not exist")

lemma find?_updateAmount (l : List DbRow) (u s : ℕ) (a : ℤ) (r : DbRow)
    (h : l.find? (rowMatches u s) = some r) :
    (updateAmount l u s a).find? (rowMatches u s) = some { r with amount := a } := by
  induction l with
  | nil => simp at h
  | cons x xs ih =>
      by_cases hx : rowMatches u s x
      · rw [List.find?_cons_of_pos _ hx, Option.some_inj] at h
        subst h
        have hx2 : rowMatches u s { x with amount := a } = true := by
          simpa [rowMatches] using hx
        simp [updateAmount, hx, List.find?_cons_of_pos _ hx2]
      · rw [List.find?_cons_of_neg _ hx] at h
        simp [updateAmount, hx, List.find?_cons_of_neg _ hx, ih h]

lemma updateAmount_updateAmount (l : List DbRow) (u s : ℕ) (a b : ℤ) :
    updateAmount (updateAmount l u s a) u s b = updateAmount l u s b := by
  induction l with
  | nil => rfl
  | cons x xs ih =>
      by_cases hx : rowMatches u s x
      · have hx2 : rowMatches u s { x with amount := a } = true := by
          simpa [rowMatches] using hx
        simp [updateAmount, hx, hx2]
      · simp [updateAmount, hx, ih]

lemma find?_append_singleton (l : List DbRow) (u s : ℕ) (r : DbRow)
    (hl : l.find? (rowMatches u s) = none) (hr : rowMatches u s r = true) :
    (l ++ [r]).find? (rowMatches u s) = some r := by
  rw [List.find?_append, hl]
  simp [List.find?_cons_of_pos _ hr]

lemma updateAmount_append_singleton (l : List DbRow) (u s : ℕ) (r : DbRow) (b : ℤ)
    (hl : l.find? (rowMatches u s) = none) (hr : rowMatches u s r = true) :
    updateAmount (l ++ [r]) u s b = l ++ [{ r with amount := b }] := by
  induction l with
  | nil => simp [updateAmount, hr]
  | cons x xs ih =>
      rw [List.find?_cons] at hl
      by_cases hx : rowMatches u s x
      · simp [hx] at hl
      · have hxs : xs.find? (rowMatches u s) = none := by
          simpa [hx] using hl
        simp [updateAmount, hx, ih hxs]

/-- C7: the collection upsert accumulates — minting quantity `a` and then
quantity `b` for the same (user, song) produces exactly the same store and
returned row as minting `a + b` once, including the error cases. -/
lemma except_bind_ok {ε α β : Type} (x : α) (f : α → Except ε β) :
    (Except.ok x : Except ε α).bind f = f x := rfl

lemma except_bind_error {ε α β : Type} (e : ε) (f : α → Except ε β) :
    (Except.error e : Except ε α).bind f = Except.error e := rfl

theorem createCollection_assoc (st : Store) (u s : ℕ) (a b : ℤ) :
    ((createCollection st u s a).bind fun p => createCollection p.1 u s b) =
      createCollection st u s (a + b) := by
  cases hfind : getCollection st u s with
  | some res =>
      have h1 : getCollection
          { st with collections := updateAmount st.collections u s (res.amount + a) } u s =
          some { res with amount := res.amount + a } :=
        find?_updateAmount st.collections u s (res.amount + a) res hfind
      simp only [createCollection, hfind, except_bind_ok, h1,
        updateAmount_updateAmount, add_assoc]
  | none =>
      have hrm : rowMatches u s ⟨u, s, a⟩ = true := by simp [rowMatches]
      by_cases hu : userExists st u
      · by_cases hs : songExists st s
        · have h2 : getCollection
              { st with collections := st.collections ++ [⟨u, s, a⟩] } u s =
              some ⟨u, s, a⟩ :=
            find?_append_singleton st.collections u s ⟨u, s, a⟩ hfind hrm
          simp only [createCollection, hfind, hu, hs, if_true, except_bind_ok, h2,
            updateAmount_append_singleton st.collections u s ⟨u, s, a⟩ (a + b) hfind hrm]
        · simp only [createCollection, hfind, hu, hs, if_true, if_false,
            Bool.false_eq_true, except_bind_error]
      · simp only [createCollection, hfind, hu, Bool.false_eq_true, if_false,
          except_bind_error]

/-- C10: the first-mint path of `createCollection` throws (creating no row)
when the user or the song is missing from the store, while the repeat-mint
path updates the stored amount without any user or song existence check. -/
theorem createCollection_existence_checks (st : Store) (u s : ℕ) (a : ℤ) :
    (getCollection st u s = none → userExists st u = false →
      createCollection st u s a =
        .error ("User with ID " ++ toString u ++ " does not exist")) ∧
    (getCollection st u s = none → userExists st u = true → songExists st s = false →
      createCollection st u s a =
        .error ("Song with ID " ++ toString s ++ " does not exist")) ∧
    (∀ r, getCollection st u s = some r →
      createCollection st u s a =
        .ok ({ st with collections := updateAmount st.collections u s (r.amount + a) },
          { r with amount := r.amount + a })) := by
  refine ⟨?_, ?_, ?_⟩
  · intro hnone hu
    unfold createCollection
    rw [hnone]
    simp [hu]
  · intro hnone hu hs
    unfold createCollection
    rw [hnone]
    simp [hu, hs]
  · intro r hr
    unfold createCollection
    rw [hr]

/-- C10, witness: in a store with no users, no songs, and one existing row
for (user 1, song 2), the repeat path accumulates with no existence check,
while a first mint for the absent pair (3, 2) throws the user-missing error. -/
theorem createCollection_existence_checks_witness :
    createCollection ⟨[], [], [⟨1, 2, 5⟩]⟩ 1 2 3 =
      .ok (⟨[], [], [⟨1, 2, 8⟩]⟩, ⟨1, 2, 8⟩) ∧
    createCollection ⟨[], [], [⟨1, 2, 5⟩]⟩ 3 2 4 =
      .error ("User with ID " ++ toString (3 : ℕ) ++ " does not exist") := by
  constructor
  · have h := (createCollection_existence_checks ⟨[], [], [⟨1, 2, 5⟩]⟩ 1 2 3).2.2
      ⟨1, 2, 5⟩ (by decide)
    rw [h]
    rfl
  · exact (createCollection_existence_checks ⟨[], [], [⟨1, 2, 5⟩]⟩ 3 2 4).1
      (by decide) (by decide)

/-! ## Leaderboard position (`getUserCollectionWithPosition`)

The query orders a song's collection rows by amount descending and takes the
0-based `findIndex` of the row whose user fid matches, returning the 1-based
position or null. The database sort is embedded as an insertion sort by the
descending-amount relation. -/

/-- `orderBy: { amount: "desc" }` as a relation: `x` may precede `y`. -/
def byAmountDesc (x y : DbRow) : Prop := y.amount ≤ x.amount

instance : DecidableRel byAmountDesc :=
  fun x y => inferInstanceAs (Decidable (y.amount ≤ x.amount))

instance : IsTotal DbRow byAmountDesc :=
  ⟨fun x y => le_total y.amount x.amount⟩

instance : IsTrans DbRow byAmountDesc :=
  ⟨fun _ _ _ h1 h2 => le_trans h2 h1⟩

/-- `prisma.collection.findMany({ where: { songId }, orderBy: { amount: "desc" } })`. -/
def collectorsForSong (st : Store) (songId : ℕ) : List DbRow :=
  List.insertionSort byAmountDesc (st.collections.filter (fun r => r.songId == songId))

/-- `getUserCollectionWithPosition`: the collection row and 1-based position,
or `(null, null)` when `findIndex` returns `-1`. -/
def getUserCollectionWithPosition (st : Store) (songId fid : ℕ) :
    Option DbRow × Option ℕ :=
  let collectors := collectorsForSong st songId
  match collectors.findIdx? (fun c => c.userId == fid) with
  | some i => (collectors[i]?, some (i + 1))
  | none => (none, none)

/-- C8: the computed position is the strictly 1-based index of the user's row
in the song's collectors ordered by amount descending (the sorted list is a
permutation of the song's rows and is sorted by `byAmountDesc`; position
`k` means the row at index `k - 1` is the user's and no earlier row is), it
is null exactly when the user is not among the song's collectors, and a
collector with a strictly largest amount receives position 1. -/
theorem leaderboard_position_spec (st : Store) (songId fid : ℕ) :
    (collectorsForSong st songId).Perm
      (st.collections.filter (fun r => r.songId == songId)) ∧
    (collectorsForSong st songId).Sorted byAmountDesc ∧
    ((getUserCollectionWithPosition st songId fid).2 = none ↔
      ∀ r ∈ st.collections, r.songId = songId → r.userId ≠ fid) ∧
    (∀ k, (getUserCollectionWithPosition st songId fid).2 = some k →
      1 ≤ k ∧
      (∃ r, (collectorsForSong st songId)[k - 1]? = some r ∧ r.userId = fid) ∧
      (∀ j, j < k - 1 → ∀ r', (collectorsForSong st songId)[j]? = some r' →
        r'.userId ≠ fid)) ∧
    (∀ r ∈ st.collections, r.songId = songId → r.userId = fid →
      (∀ r2 ∈ st.collections, r2.songId = songId → r2 ≠ r → r2.amount < r.amount) →
      (getUserCollectionWithPosition st songId fid).2 = some 1) := by
  have hperm : (collectorsForSong st songId).Perm
      (st.collections.filter (fun r => r.songId == songId)) :=
    List.perm_insertionSort byAmountDesc _
  have hsorted : (collectorsForSong st songId).Sorted byAmountDesc :=
    List.sorted_insertionSort byAmountDesc _
  refine ⟨hperm, hsorted, ?_, ?_, ?_⟩
  · constructor
    · intro hnone r hr hrs
      simp only [getUserCollectionWithPosition] at hnone
      cases hidx : (collectorsForSong st songId).findIdx? (fun c => c.userId == fid) with
      | some i => rw [hidx] at hnone; simp at hnone
      | none =>
          have hall := List.findIdx?_eq_none_iff.mp hidx
          have hrmem : r ∈ collectorsForSong st songId := by
            rw [hperm.mem_iff]
            exact List.mem_filter.mpr ⟨hr, by simp [hrs]⟩
          have := hall r hrmem
          simpa using this
    · intro hnone
      simp only [getUserCollectionWithPosition]
      cases hidx : (collectorsForSong st songId).findIdx? (fun c => c.userId == fid) with
      | some i =>
          exfalso
          obtain ⟨hlt, hfi⟩ := List.findIdx?_eq_some_iff_findIdx_eq.mp hidx
          have hw : List.findIdx (fun c : DbRow => c.userId == fid)
              (collectorsForSong st songId) < (collectorsForSong st songId).length := by
            rw [hfi]; exact hlt
          have hp := @List.findIdx_getElem _ (fun c : DbRow => c.userId == fid)
            (collectorsForSong st songId) hw
          simp only [hfi] at hp
          have hmem : (collectorsForSong st songId)[i] ∈ collectorsForSong st songId :=
            List.getElem_mem hlt
          have hmem2 := hperm.mem_iff.mp hmem
          obtain ⟨hmem3, hps⟩ := List.mem_filter.mp hmem2
          exact hnone _ hmem3 (by simpa using hps) (by simpa using hp)
      | none => rfl
  · intro k hk
    simp only [getUserCollectionWithPosition] at hk
    cases hidx : (collectorsForSong st songId).findIdx? (fun c => c.userId == fid) with
    | none => rw [hidx] at hk; simp at hk
    | some i =>
        rw [hidx] at hk
        simp only [Option.some_inj] at hk
        subst hk
        obtain ⟨hlt, hfi⟩ := List.findIdx?_eq_some_iff_findIdx_eq.mp hidx
        have hw : List.findIdx (fun c : DbRow => c.userId == fid)
            (collectorsForSong st songId) < (collectorsForSong st songId).length := by
          rw [hfi]; exact hlt
        have hp := @List.findIdx_getElem _ (fun c : DbRow => c.userId == fid)
          (collectorsForSong st songId) hw
        simp only [hfi] at hp
        refine ⟨Nat.le_add_left 1 i, ⟨(collectorsForSong st songId)[i], ?_, ?_⟩, ?_⟩
        · simp only [Nat.add_sub_cancel]
          exact List.getElem?_eq_some.mpr ⟨hlt, rfl⟩
        · simpa using hp
        · intro j hj r2 hr2 hr2fid
          simp only [Nat.add_sub_cancel] at hj
          have hjlt : j < (collectorsForSong st songId).length := lt_trans hj hlt
          have hpj : (fun c : DbRow => c.userId == fid)
              ((collectorsForSong st songId)[j]) = false := by
            rw [← hfi] at hj
            exact List.not_of_lt_findIdx hj
          have : (collectorsForSong st songId)[j] = r2 := by
            have := List.getElem?_eq_some.mp hr2
            obtain ⟨h1, h2⟩ := this
            exact h2
          rw [this] at hpj
          simp [hr2fid] at hpj
  · intro r hr hrs hrf hmax
    have hrmem : r ∈ collectorsForSong st songId := by
      rw [hperm.mem_iff]
      exact List.mem_filter.mpr ⟨hr, by simp [hrs]⟩
    cases hL : collectorsForSong st songId with
    | nil => rw [hL] at hrmem; simp at hrmem
    | cons hd tl =>
        have hhdmem : hd ∈ collectorsForSong st songId := by rw [hL]; simp
        obtain ⟨hhd1, hhd2⟩ := List.mem_filter.mp (hperm.mem_iff.mp hhdmem)
        have hhd3 : hd.songId = songId := by simpa using hhd2
        have hdr : hd = r := by
          by_contra hne
          have hlt := hmax hd hhd1 hhd3 hne
          rw [hL] at hrmem
          rcases List.mem_cons.mp hrmem with heq | htl
          · exact hne heq.symm
          · have hrel := List.rel_of_sorted_cons (hL ▸ hsorted) r htl
            exact absurd hlt (not_lt.mpr hrel)
        simp only [getUserCollectionWithPosition, hL]
        rw [List.findIdx?_cons]
        simp [hdr, hrf]

/-- C8, witness: in a store whose song 9 has collectors with amounts 5 and 7,
the fid-2 collector holding the strictly largest amount 7 is ranked first. -/
theorem leaderboard_position_spec_witness :
    (getUserCollectionWithPosition ⟨[], [], [⟨1, 9, 5⟩, ⟨2, 9, 7⟩]⟩ 9 2).2 = some 1 :=
  (leaderboard_position_spec ⟨[], [], [⟨1, 9, 5⟩, ⟨2, 9, 7⟩]⟩ 9 2).2.2.2.2
    ⟨2, 9, 7⟩ (by decide) rfl rfl (by decide)

/-! ## Post-mint side-effect pipeline body

The five steps awaited in order by `executePostMintLogic`:
mini-app prompt (its catch is silent), `signUpUser`, `createCollection`,
`sendNotification`, `trackEvent`. Each fallible step has its own try/catch,
so no failure aborts the later steps. -/

inductive PipelineStep
  | promptAddMiniApp
  | signUpUser
  | createCollectionStep
  | sendNotificationStep
  | analyticsEvent
  deriving DecidableEq, Repr

/-- The ordinal suffix computed inline in `sendNotification`. -/
def ordinalSuffix (n : ℕ) : String :=
  if n % 10 = 1 ∧ n % 100 ≠ 11 then "st"
  else if n % 10 = 2 ∧ n % 100 ≠ 12 then "nd"
  else if n % 10 = 3 ∧ n % 100 ≠ 13 then "rd"
  else "th"

/-- `leaderboardText`: the ordinal-suffixed rank when the position is truthy
(a JavaScript `0` is falsy, as is a null position), else the fallback. -/
def leaderboardText (position : Option ℕ) : String :=
  match position with
  | some p =>
      if p = 0 then "You\x27re now on the leaderboard"
      else "You\x27re in " ++ toString p ++ ordinalSuffix p ++ " place on the leaderboard"
  | none => "You\x27re now on the leaderboard"

structure PipelineRun where
  steps : List PipelineStep
  toasts : List String
  notificationText : Option String
  deriving DecidableEq, Repr

/-- The body of `executePostMintLogic` past the guard. `collResult` is
`some position?` when the collection upsert succeeds (carrying the returned
leaderboard position) and `none` when it throws (the notification then sees
a null position). The mini-app prompt failure produces no toast. -/
def runPostMintPipeline (_miniAppOk signUpOk notifOk : Bool)
    (collResult : Option (Option ℕ)) : PipelineRun :=
  let signUpToasts : List String := if signUpOk then [] else ["Error signing up user"]
  let collToasts : List String :=
    if collResult.isSome then [] else ["Error creating collection"]
  let position : Option ℕ :=
    match collResult with
    | some p => p
    | none => none
  let notifToasts : List String := if notifOk then [] else ["Error sending notification"]
  { steps := [.promptAddMiniApp, .signUpUser, .createCollectionStep,
      .sendNotificationStep, .analyticsEvent],
    toasts := signUpToasts ++ collToasts ++ notifToasts,
    notificationText := some (leaderboardText position) }

/-- C9, counterexample: a failing mini-app prompt is *not* reported — the run
emits no notice at all — although every later step still executes in order,
refuting the clause that a failure in any one step is reported. -/
theorem miniapp_failure_unreported :
    (runPostMintPipeline false true true (some (some 1))).toasts = [] ∧
    (runPostMintPipeline false true true (some (some 1))).steps =
      [PipelineStep.promptAddMiniApp, PipelineStep.signUpUser,
        PipelineStep.createCollectionStep, PipelineStep.sendNotificationStep,
        PipelineStep.analyticsEvent] :=
  ⟨rfl, rfl⟩

/-- C9, amended: the steps run strictly in this order whatever succeeds or
fails; failures of registration, collection upsert and notification are each
reported as a non-blocking notice and abort nothing, while the mini-app
prompt failure is silently ignored (the notices do not depend on it); the
notification text uses the ordinal-suffixed rank when a rank was returned and
the fallback text when the rank is null. -/
theorem pipeline_order_fault_tolerance (ma su no : Bool)
    (coll : Option (Option ℕ)) (p : ℕ) :
    (runPostMintPipeline ma su no coll).steps =
      [PipelineStep.promptAddMiniApp, PipelineStep.signUpUser,
        PipelineStep.createCollectionStep, PipelineStep.sendNotificationStep,
        PipelineStep.analyticsEvent] ∧
    (runPostMintPipeline ma su no coll).toasts =
      (if su then [] else ["Error signing up user"]) ++
      (if coll.isSome then [] else ["Error creating collection"]) ++
      (if no then [] else ["Error sending notification"]) ∧
    (runPostMintPipeline false su no coll).toasts =
      (runPostMintPipeline true su no coll).toasts ∧
    (runPostMintPipeline ma su no coll).notificationText =
      some (leaderboardText (coll.getD none)) ∧
    (1 ≤ p → leaderboardText (some p) =
      "You\x27re in " ++ toString p ++ ordinalSuffix p ++ " place on the leaderboard") ∧
    leaderboardText none = "You\x27re now on the leaderboard" ∧
    ordinalSuffix 1 = "st" ∧ ordinalSuffix 2 = "nd" ∧ ordinalSuffix 3 = "rd" ∧
    ordinalSuffix 4 = "th" ∧ ordinalSuffix 11 = "th" ∧ ordinalSuffix 12 = "th" ∧
    ordinalSuffix 13 = "th" ∧ ordinalSuffix 21 = "st" := by
  refine ⟨rfl, rfl, rfl, ?_, ?_, rfl, rfl, rfl, rfl, rfl, rfl, rfl, rfl, rfl⟩
  · cases coll <;> rfl
  · intro hp
    have hp0 : p ≠ 0 := by omega
    simp [leaderboardText, hp0]

/-- C9, witness: a rank of 2 is rendered with the `nd` suffix. -/
theorem pipeline_order_fault_tolerance_witness :
    leaderboardText (some 2) = "You\x27re in 2nd place on the leaderboard" := by
  have h := (pipeline_order_fault_tolerance true true true none 2).2.2.2.2.1 (by norm_num)
  rw [h]
  rfl

/-! ## Insufficient-balance gating of the mint buttons -/

/-- The ETH mint button `disabled` expression. -/
def ethMintDisabled (hasBalance mintStatusPending mintTxInFlight : Bool) : Bool :=
  !hasBalance || mintStatusPending || mintTxInFlight

/-- The ETH mint button label. -/
def ethMintLabel (hasBalance : Bool) : String :=
  if !hasBalance then "INSUFFICIENT ETH BALANCE" else "MINT WITH ETH"

/-- Clicking the ETH button: `handleMint(mintQuantity, false)` when enabled,
nothing when disabled. -/
def clickEthMint (disabled : Bool) (mintQuantity : ℕ) : Option (ℕ × Bool) :=
  if disabled then none else some (mintQuantity, false)

/-- The USDC mint button `disabled` expression. -/
def usdcMintDisabled (hasUsdcBalance sendCallsPending allowancePending
    allowanceTxInFlight mintStatusPending mintTxInFlight : Bool) : Bool :=
  !hasUsdcBalance || sendCallsPending || allowancePending ||
    allowanceTxInFlight || mintStatusPending || mintTxInFlight

/-- The USDC mint button label. -/
def usdcMintLabel (hasUsdcBalance sendCallsPending allowancePending
    allowanceTxInFlight : Bool) : String :=
  if !hasUsdcBalance then "INSUFFICIENT USDC BALANCE"
  else if sendCallsPending then "MINTING"
  else if allowancePending || allowanceTxInFlight then "APPROVING"
  else "MINT WITH USDC"

inductive UsdcClickAction
  | approveAndMintSendCalls
  | mintOnly
  deriving DecidableEq, Repr

/-- Clicking the USDC button: with no sufficient allowance the bundled
approve-and-mint path, otherwise a plain mint; nothing when disabled. -/
def clickUsdcMint (disabled hasAllowance : Bool) : Option UsdcClickAction :=
  if disabled then none
  else if !hasAllowance then some .approveAndMintSendCalls
  else some .mintOnly

/-- C6: whenever the live balance for the selected currency is below the
required total (the native threshold carries the 1% markup through
`safePrice`), the affordability check is false, the mint action is disabled
and labeled as insufficient balance, and a click submits nothing to the
chain — for either payment method, whatever the other pending flags are. -/
theorem insufficient_balance_disables_mint
    (balance : ℤ) (usdPrice ethUsd : ℚ) (q : ℕ) (p1 p2 p3 p4 p5 hasAllowance : Bool) :
    (balance < requiredEthWei usdPrice ethUsd q →
      hasEnoughEthBalance (some balance) true usdPrice ethUsd q = false ∧
      ethMintDisabled (hasEnoughEthBalance (some balance) true usdPrice ethUsd q)
        p1 p2 = true ∧
      ethMintLabel (hasEnoughEthBalance (some balance) true usdPrice ethUsd q) =
        "INSUFFICIENT ETH BALANCE" ∧
      clickEthMint (ethMintDisabled
        (hasEnoughEthBalance (some balance) true usdPrice ethUsd q) p1 p2) q = none) ∧
    (balance < requiredUsdcMinor usdPrice q →
      hasEnoughUsdcBalance (some balance) true usdPrice q = false ∧
      usdcMintDisabled (hasEnoughUsdcBalance (some balance) true usdPrice q)
        p1 p2 p3 p4 p5 = true ∧
      usdcMintLabel (hasEnoughUsdcBalance (some balance) true usdPrice q)
        p1 p2 p3 = "INSUFFICIENT USDC BALANCE" ∧
      clickUsdcMint (usdcMintDisabled
        (hasEnoughUsdcBalance (some balance) true usdPrice q) p1 p2 p3 p4 p5)
        hasAllowance = none) := by
  constructor
  · intro h
    have hb : hasEnoughEthBalance (some balance) true usdPrice ethUsd q = false := by
      simp only [hasEnoughEthBalance, decide_eq_false_iff_not]
      exact not_le.mpr h
    rw [hb]
    exact ⟨rfl, rfl, rfl, rfl⟩
  · intro h
    have hb : hasEnoughUsdcBalance (some balance) true usdPrice q = false := by
      simp only [hasEnoughUsdcBalance]
      by_cases h0 : balance = 0
      · simp [h0]
      · simp only [h0, if_false, decide_eq_false_iff_not]
        exact not_le.mpr h
    rw [hb]
    exact ⟨rfl, rfl, rfl, rfl⟩

/-- C6, witness: a 5-wei balance at `usdPrice = 4`, `ethUsd = 2000`,
quantity 5 is below the marked-up requirement `1.01e16` wei, so the ETH mint
click submits nothing. -/
theorem insufficient_balance_disables_mint_witness :
    (5 : ℤ) < requiredEthWei 4 2000 5 ∧
    clickEthMint (ethMintDisabled
      (hasEnoughEthBalance (some 5) true 4 2000 5) false false) 5 = none := by
  have hreq : requiredEthWei 4 2000 5 = 10100000000000000 := by
    unfold requiredEthWei safePrice price
    rw [Int.ceil_eq_iff]
    constructor <;> norm_num
  have hlt : (5 : ℤ) < requiredEthWei 4 2000 5 := by rw [hreq]; norm_num
  exact ⟨hlt,
    ((insufficient_balance_disables_mint 5 4 2000 5 false false false false false
      false).1 hlt).2.2.2⟩

end AcidTest
